import Mathlib

/-!
Verification development for the Facebook page-post extraction engine
(`src/parser.py`, class `FacebookParser`).

The engine is shallowly embedded: the HTML tree produced by the document
loader (BeautifulSoup/lxml, an external library) is modelled by the
inductive type `HNode`; every extraction routine of `FacebookParser` is
translated into an executable Lean function over `HNode`.  Python
`try/except` blocks are made explicit: each sub-extractor takes a `Bool`
fault flag (an injected internal exception); when the flag is set the
function returns exactly what the corresponding `except` branch of the
source returns.  Machine integers do not occur (Python integers are
unbounded); the MD5 computation of the fallback-identifier path is
implemented over `Nat` with explicit `% 2^32` reductions.
-/

/-! ## Small Python-flavoured string utilities (over `List Char`) -/

/-- Python `needle in haystack` substring test. -/
def strContainsSub (s pat : String) : Bool :=
  s.data.tails.any (fun t => pat.data.isPrefixOf t)

/-- First `n` characters of a string (Python `s[:n]`). -/
def strTake (n : Nat) (s : String) : String :=
  ⟨s.data.take n⟩

/-- Python `str.lower()` (ASCII case folding, which is all the scanned
patterns need). -/
def strLower (s : String) : String :=
  ⟨s.data.map Char.toLower⟩

/-- Python `str.strip()`: drop leading and trailing whitespace. -/
def strStrip (s : String) : String :=
  ⟨(((s.data.dropWhile Char.isWhitespace).reverse.dropWhile Char.isWhitespace).reverse)⟩

/-- Python `str.startswith`. -/
def strStarts (s pat : String) : Bool :=
  pat.data.isPrefixOf s.data

/-- Value of a decimal digit list (used for Python `int(...)` on digits). -/
def digitsVal (l : List Char) : Nat :=
  l.foldl (fun a c => a * 10 + (c.toNat - 48)) 0

/-- Python `int(s)`: strip whitespace, optional sign, then a non-empty
run of decimal digits; anything else raises `ValueError`, modelled as
`none`.  (Underscore digit grouping, accepted by CPython, is not used by
any scanned markup and is not modelled.) -/
def pyInt (s : String) : Option Int :=
  let l := (s.data.dropWhile Char.isWhitespace).reverse.dropWhile Char.isWhitespace |>.reverse
  match l with
  | [] => none
  | '-' :: ds => if ds ≠ [] ∧ ds.all Char.isDigit then some (-(digitsVal ds : Int)) else none
  | '+' :: ds => if ds ≠ [] ∧ ds.all Char.isDigit then some ((digitsVal ds : Int)) else none
  | ds => if ds.all Char.isDigit then some ((digitsVal ds : Int)) else none

/-- Python `str.replace(pat, rep)`: replace every occurrence of `pat` by
`rep` (used for `.replace("px", "")`, `.replace(",", "")` and
`.replace("Z", "+00:00")`).  The recursion is driven by a fuel counter
equal to the input length so that the definition stays structural (each
step consumes at least one character). -/
def replaceAllAux (pat rep : List Char) : Nat → List Char → List Char
  | _, [] => []
  | 0, l => l
  | fuel + 1, c :: cs =>
    if pat ≠ [] ∧ pat.isPrefixOf (c :: cs) then
      rep ++ replaceAllAux pat rep fuel ((c :: cs).drop pat.length)
    else
      c :: replaceAllAux pat rep fuel cs

def replaceAll (s pat rep : String) : String :=
  ⟨replaceAllAux pat.data rep.data s.data.length s.data⟩

/-- Python `s.replace(pat, "")`. -/
def removeAll (s pat : String) : String :=
  replaceAll s pat ""

/-! ## Scanners modelling the `re` patterns used by `parser.py` -/

/-- Model of `re.search(key + "([^" + stop + "]+)", s)` for a literal
`key` and a single excluded terminator character (`story_fbid=([^&]+)`,
`/permalink/([^/]+)`, `/posts/([^/]+)`, `/videos/([^/]+)`): the scan
finds the leftmost occurrence of `key` that is followed by at least one
character different from `stop` and captures the maximal such run. -/
def capAfterKey (key : List Char) (stop : Char) : List Char → Option (List Char)
  | [] => none
  | c :: cs =>
    if key.isPrefixOf (c :: cs) then
      let cap := ((c :: cs).drop key.length).takeWhile (· ≠ stop)
      if cap = [] then capAfterKey key stop cs else some cap
    else capAfterKey key stop cs

/-- Model of `re.search('"mf_story_key":"(\\d+)"', s)`: leftmost
occurrence of the literal key whose following maximal digit run is
non-empty and immediately followed by a double quote. -/
def capDigitsQuoted (key : List Char) : List Char → Option (List Char)
  | [] => none
  | c :: cs =>
    if key.isPrefixOf (c :: cs) then
      let rest := (c :: cs).drop key.length
      let ds := rest.takeWhile Char.isDigit
      if ds ≠ [] ∧ (rest.drop ds.length).head? = some '"' then some ds
      else capDigitsQuoted key cs
    else capDigitsQuoted key cs

/-- Model of `re.search(r"(\d{10,})", s)`: the first maximal digit run of
length at least 10 (the accumulator carries the current run reversed). -/
def scanLongRun (cur : List Char) : List Char → Option (List Char)
  | [] => if cur.length ≥ 10 then some cur.reverse else none
  | c :: cs =>
    if c.isDigit then scanLongRun (c :: cur) cs
    else if cur.length ≥ 10 then some cur.reverse
    else scanLongRun [] cs

/-- A character matched by the `[\d,]` class of the engagement patterns. -/
def isRunChar (c : Char) : Bool := c.isDigit || c = ','

/-- After a `[\d,]+` run, the engagement patterns require `\s*` and then
one of the alternation keywords as a prefix of the remaining text. -/
def engCheckTail (kws : List (List Char)) (rest : List Char) : Bool :=
  kws.any (fun k => k.isPrefixOf (rest.dropWhile Char.isWhitespace))

/-- Model of `re.search(r"([\d,]+)\s*(?:kw1|kw2)", text, re.I)` applied
to lowercased text with lowercase keywords: the captured group is the
first maximal `[\d,]` run that is followed, after optional whitespace,
by one of the keywords. -/
def engScan (kws : List (List Char)) (cur : List Char) : List Char → Option (List Char)
  | [] => none
  | c :: cs =>
    if isRunChar c then engScan kws (c :: cur) cs
    else if cur ≠ [] ∧ engCheckTail kws (c :: cs) then some cur.reverse
    else engScan kws [] cs

/-- Inside `url(...)` with a quote delimiter `q`, the lazy group of
`url\((["\']?)(.*?)\1\)` captures up to the first `q` that is
immediately followed by a closing parenthesis. -/
def capUntilQuoteParen (q : Char) (acc : List Char) : List Char → Option (List Char)
  | [] => none
  | c :: cs =>
    if c = q ∧ cs.head? = some ')' then some acc.reverse
    else capUntilQuoteParen q (c :: acc) cs

/-- With an empty quote group the lazy content runs to the first `)`. -/
def capUntilParen (l : List Char) : Option (List Char) :=
  if (')') ∈ l then some (l.takeWhile (· ≠ ')')) else none

/-- Capture attempt at one `url(` occurrence, with the backtracking of
the optional quote group: a leading quote is preferred, and if no
matching `quote )` terminator exists the group backtracks to empty. -/
def urlCapAt : List Char → Option (List Char)
  | [] => none
  | q :: rs =>
    if q = '"' ∨ q = '\'' then
      match capUntilQuoteParen q [] rs with
      | some u => some u
      | none => capUntilParen (q :: rs)
    else capUntilParen (q :: rs)

/-- Model of `re.search(r'url\((["\']?)(.*?)\1\)', style)`: scan for the
leftmost `url(` occurrence at which a capture succeeds. -/
def urlCapture : List Char → Option (List Char)
  | [] => none
  | c :: cs =>
    if ("url(").data.isPrefixOf (c :: cs) then
      match urlCapAt ((c :: cs).drop 4) with
      | some u => some u
      | none => urlCapture cs
    else urlCapture cs

/-! ## MD5 (RFC 1321) over byte lists, for the content-hash fallback id -/

/-- UTF-8 encoding of one character (Python `str.encode()`). -/
def utf8Char (c : Char) : List Nat :=
  let n := c.toNat
  if n < 128 then [n]
  else if n < 2048 then [192 + n / 64, 128 + n % 64]
  else if n < 65536 then [224 + n / 4096, 128 + (n / 64) % 64, 128 + n % 64]
  else [240 + n / 262144, 128 + (n / 4096) % 64, 128 + (n / 64) % 64, 128 + n % 64]

def utf8Bytes (s : String) : List Nat :=
  s.data.flatMap utf8Char

def md5K : List Nat :=
  [3614090360, 3905402710, 606105819, 3250441966,
   4118548399, 1200080426, 2821735955, 4249261313,
   1770035416, 2336552879, 4294925233, 2304563134,
   1804603682, 4254626195, 2792965006, 1236535329,
   4129170786, 3225465664, 643717713, 3921069994,
   3593408605, 38016083, 3634488961, 3889429448,
   568446438, 3275163606, 4107603335, 1163531501,
   2850285829, 4243563512, 1735328473, 2368359562,
   4294588738, 2272392833, 1839030562, 4259657740,
   2763975236, 1272893353, 4139469664, 3200236656,
   681279174, 3936430074, 3572445317, 76029189,
   3654602809, 3873151461, 530742520, 3299628645,
   4096336452, 1126891415, 2878612391, 4237533241,
   1700485571, 2399980690, 4293915773, 2240044497,
   1873313359, 4264355552, 2734768916, 1309151649,
   4149444226, 3174756917, 718787259, 3951481745]

def md5S : List Nat :=
  [7, 12, 17, 22, 7, 12, 17, 22, 7, 12, 17, 22, 7, 12, 17, 22,
   5, 9, 14, 20, 5, 9, 14, 20, 5, 9, 14, 20, 5, 9, 14, 20,
   4, 11, 16, 23, 4, 11, 16, 23, 4, 11, 16, 23, 4, 11, 16, 23,
   6, 10, 15, 21, 6, 10, 15, 21, 6, 10, 15, 21, 6, 10, 15, 21]

/-- Left rotation of a 32-bit word expressed arithmetically. -/
def rotl32 (x s : Nat) : Nat :=
  (x % 2 ^ (32 - s)) * 2 ^ s + x / 2 ^ (32 - s)

/-- Split the padded message into 64-byte chunks (fuel-driven to keep
the recursion structural). -/
def chunks64 : Nat → List Nat → List (List Nat)
  | _, [] => []
  | 0, _ => []
  | fuel + 1, l => l.take 64 :: chunks64 fuel (l.drop 64)

/-- The sixteen little-endian 32-bit words of one chunk. -/
def md5Words (chunk : List Nat) : List Nat :=
  (List.range 16).map fun j =>
    chunk.getD (4 * j) 0 + 256 * chunk.getD (4 * j + 1) 0 +
      65536 * chunk.getD (4 * j + 2) 0 + 16777216 * chunk.getD (4 * j + 3) 0

/-- One of the 64 MD5 operations. -/
def md5Step (M : List Nat) (st : Nat × Nat × Nat × Nat) (i : Nat) : Nat × Nat × Nat × Nat :=
  let a := st.1
  let b := st.2.1
  let c := st.2.2.1
  let d := st.2.2.2
  let fg : Nat × Nat :=
    if i < 16 then ((b &&& c) ||| ((4294967295 - b) &&& d), i)
    else if i < 32 then ((d &&& b) ||| ((4294967295 - d) &&& c), (5 * i + 1) % 16)
    else if i < 48 then (b ^^^ c ^^^ d, (3 * i + 5) % 16)
    else (c ^^^ (b ||| (4294967295 - d)), (7 * i) % 16)
  let tmp := (a + fg.1 + md5K.getD i 0 + M.getD fg.2 0) % 4294967296
  (d, (b + rotl32 tmp (md5S.getD i 0)) % 4294967296, b, c)

def md5Chunk (st : Nat × Nat × Nat × Nat) (chunk : List Nat) : Nat × Nat × Nat × Nat :=
  let M := md5Words chunk
  let r := (List.range 64).foldl (md5Step M) st
  ((st.1 + r.1) % 4294967296, (st.2.1 + r.2.1) % 4294967296,
   (st.2.2.1 + r.2.2.1) % 4294967296, (st.2.2.2 + r.2.2.2) % 4294967296)

/-- MD5 padding: `0x80`, zeros to 56 mod 64, then the bit length as a
little-endian 64-bit quantity. -/
def md5Pad (msg : List Nat) : List Nat :=
  let len := msg.length
  let zeros := (119 - len % 64) % 64
  let bits := (8 * len) % 2 ^ 64
  msg ++ [128] ++ List.replicate zeros 0 ++ ((List.range 8).map fun j => bits / 2 ^ (8 * j) % 256)

def hexDigit (n : Nat) : Char :=
  ("0123456789abcdef").data.getD n '0'

def byteHex (b : Nat) : List Char :=
  [hexDigit (b / 16 % 16), hexDigit (b % 16)]

/-- Little-endian byte rendering of the four state words, in hex: the
value of Python `hashlib.md5(bytes).hexdigest()`. -/
def md5Hex (msg : List Nat) : String :=
  let padded := md5Pad msg
  let st := (chunks64 padded.length padded).foldl md5Chunk
    (1732584193, 4023233417, 2562383102, 271733878)
  ⟨([st.1, st.2.1, st.2.2.1, st.2.2.2].flatMap fun w =>
      [w % 256, w / 256 % 256, w / 65536 % 256, w / 16777216 % 256]).flatMap byteHex⟩

/-! ## The parsed markup tree (model of the BeautifulSoup document) -/

/-- A node of the parsed tree: a tag with attributes and children, or a
text node (`NavigableString`).  Attribute values are kept as the raw
strings of the markup; the multi-valued `class` attribute is split on
whitespace where the source relies on token structure. -/
inductive HNode where
  | text (s : String)
  | elem (tag : String) (attrs : List (String × String)) (children : List HNode)

mutual
def HNode.decEq : (a b : HNode) → Decidable (a = b)
  | .text s, .text t =>
    match String.decEq s t with
    | isTrue h => isTrue (by rw [h])
    | isFalse h => isFalse (fun he => h (HNode.text.inj he))
  | .elem t1 a1 c1, .elem t2 a2 c2 =>
    match String.decEq t1 t2, instDecidableEqList a1 a2, HNode.decEqList c1 c2 with
    | isTrue h1, isTrue h2, isTrue h3 => isTrue (by rw [h1, h2, h3])
    | isFalse h1, _, _ => isFalse (fun he => h1 (HNode.elem.inj he).1)
    | _, isFalse h2, _ => isFalse (fun he => h2 (HNode.elem.inj he).2.1)
    | _, _, isFalse h3 => isFalse (fun he => h3 (HNode.elem.inj he).2.2)
  | .text _, .elem _ _ _ => isFalse (fun he => HNode.noConfusion he)
  | .elem _ _ _, .text _ => isFalse (fun he => HNode.noConfusion he)

def HNode.decEqList : (l m : List HNode) → Decidable (l = m)
  | [], [] => isTrue rfl
  | x :: xs, y :: ys =>
    match HNode.decEq x y, HNode.decEqList xs ys with
    | isTrue h1, isTrue h2 => isTrue (by rw [h1, h2])
    | isFalse h1, _ => isFalse (fun he => h1 (List.cons.inj he).1)
    | _, isFalse h2 => isFalse (fun he => h2 (List.cons.inj he).2)
  | [], _ :: _ => isFalse (fun he => List.noConfusion he)
  | _ :: _, [] => isFalse (fun he => List.noConfusion he)
end

instance : DecidableEq HNode := HNode.decEq

/-- Tag name of a node (`""` for text nodes, which never match a name
filter). -/
def HNode.tagName : HNode → String
  | .text _ => ""
  | .elem t _ _ => t

/-- `element.get(name)`: the attribute value, `none` when absent (first
binding wins, as attribute names are unique in parsed markup). -/
def HNode.attr : HNode → String → Option String
  | .text _, _ => none
  | .elem _ attrs _, k => (attrs.find? (fun p => p.1 == k)).map (·.2)

/-- `element.get(name)` followed by a Python truthiness test: attribute
present with a non-empty value. -/
def HNode.attrTruthy (n : HNode) (k : String) : Option String :=
  match n.attr k with
  | some v => if v = "" then none else some v
  | none => none

mutual
/-- All strict descendants of a node in document (pre-)order, each
paired with its ancestor chain, nearest ancestor first.  `anc` is the
chain above the node itself (the chain above the candidate element when
extractors search inside it, since `find_parent` in the source walks
past the candidate up to the document root). -/
def HNode.descAnc : HNode → List HNode → List (HNode × List HNode)
  | .text _, _ => []
  | .elem t a cs, anc => HNode.descAncList cs (HNode.elem t a cs :: anc)

def HNode.descAncList : List HNode → List HNode → List (HNode × List HNode)
  | [], _ => []
  | c :: cs, anc => (c, anc) :: HNode.descAnc c anc ++ HNode.descAncList cs anc
end

/-- `element.descendants` as a list of node values (tag and text nodes);
Python `in` compares with the structural `Tag.__eq__`. -/
def HNode.descendants (n : HNode) : List HNode :=
  (n.descAnc []).map Prod.fst

/-- The text-node strings of the subtree, in document order (the strings
`get_text` joins). -/
def HNode.textStrings (n : HNode) : List String :=
  (n.descAnc []).filterMap fun p =>
    match p.1 with
    | .text s => some s
    | .elem _ _ _ => none

def joinSep (sep : String) : List String → String
  | [] => ""
  | [x] => x
  | x :: xs => x ++ sep ++ joinSep sep xs

/-- `get_text(separator=" ", strip=True)`: the stripped non-empty text
fragments joined with single spaces. -/
def HNode.getTextSepStrip (n : HNode) : String :=
  joinSep " " ((n.textStrings.map strStrip).filter (· ≠ ""))

/-- `get_text(strip=True)` (default empty separator). -/
def HNode.getTextStrip (n : HNode) : String :=
  joinSep "" ((n.textStrings.map strStrip).filter (· ≠ ""))

/-- `get_text()` with no arguments: plain concatenation. -/
def HNode.getTextRaw (n : HNode) : String :=
  joinSep "" n.textStrings

mutual
/-- `str(tag)`: the markup rendering used by `_is_valid_media` for its
comment/reply/avatar ancestor check.  Entity escaping and the
void-element form are irrelevant to the substring tests performed on the
result and are not reproduced. -/
def HNode.render : HNode → String
  | .text s => s
  | .elem t attrs cs =>
      "<" ++ t ++ joinSep "" (attrs.map fun p => " " ++ p.1 ++ "=\"" ++ p.2 ++ "\"") ++
        ">" ++ HNode.renderList cs ++ "</" ++ t ++ ">"

def HNode.renderList : List HNode → String
  | [] => ""
  | c :: cs => HNode.render c ++ HNode.renderList cs
end

/-- `str(x)` for the result of a `find_parent` call (`str(None) = "None"`). -/
def pyStrOptNode : Option HNode → String
  | none => "None"
  | some n => n.render

/-- `find_parent(names)`: nearest ancestor whose tag is one of `names`. -/
def findParentTag (anc : List HNode) (names : List String) : Option HNode :=
  anc.find? (fun p => names.contains p.tagName)

/-- `find_parent(class_=True)`: nearest ancestor carrying a class
attribute. -/
def findParentClass (anc : List HNode) : Option HNode :=
  anc.find? (fun p => (p.attr "class").isSome)

/-- Whitespace tokenization of a multi-valued attribute (bs4 class list). -/
def wordsAux (cur : List Char) : List Char → List (List Char)
  | [] => if cur = [] then [] else [cur.reverse]
  | c :: cs =>
    if c.isWhitespace then
      (if cur = [] then wordsAux [] cs else cur.reverse :: wordsAux [] cs)
    else wordsAux (c :: cur) cs

def classTokens (v : String) : List String :=
  (wordsAux [] v.data).map (⟨·⟩)

/-- `str(list)` for a list of class tokens (Python list repr). -/
def pyListStr (ts : List String) : String :=
  "[" ++ joinSep ", " (ts.map fun t => "'" ++ t ++ "'") ++ "]"

/-! ## `FacebookParser.extract_content` -/

/-- Datetime values produced by `extract_timestamp`
(`datetime.fromtimestamp` on a Unix epoch, or `datetime.fromisoformat`
on a normalized ISO string). -/
inductive PyDateTime where
  | fromTimestamp (n : Int)
  | fromIso (s : String)
deriving DecidableEq

/-- Acceptance test abstracting `datetime.fromisoformat`: a four-digit
year, two-digit month and day in range, optionally followed by a
`T`/space separated time part (whose fine structure no claim depends
on).  Strings outside this shape raise, which the source catches. -/
def isoOk (s : String) : Bool :=
  match s.data with
  | y1 :: y2 :: y3 :: y4 :: '-' :: m1 :: m2 :: '-' :: d1 :: d2 :: rest =>
    [y1, y2, y3, y4, m1, m2, d1, d2].all Char.isDigit &&
      1 ≤ digitsVal [m1, m2] && digitsVal [m1, m2] ≤ 12 &&
      1 ≤ digitsVal [d1, d2] && digitsVal [d1, d2] ≤ 31 &&
      (rest = [] || rest.head? = some 'T' || rest.head? = some ' ')
  | _ => false

/-- `str(datetime)`.  The concrete calendar text of
`str(datetime.fromtimestamp(n))` depends on the runtime timezone, so an
abstract injective rendering is used; every claim about the generated
identifier is a function of the timestamp value only. -/
def pyStrDT : PyDateTime → String
  | .fromTimestamp n => "datetime(" ++ toString n ++ ")"
  | .fromIso s => "datetime(" ++ s ++ ")"

/-- `str(x)` for an optional timestamp (`str(None) = "None"`). -/
def pyStrOptDT : Option PyDateTime → String
  | none => "None"
  | some d => pyStrDT d

/-- The `" ".join(elem.get("class", []))` string of an element. -/
def clsJoined (n : HNode) : String :=
  match n.attr "class" with
  | some v => joinSep " " (classTokens v)
  | none => ""

/-- Pass 2 of `extract_content`: `div`/`span` elements with `dir="auto"`,
not nested in a button or link, whose class string mentions one of the
four body-text utility tokens, contributing distinct fragments longer
than 3 characters. -/
def step2Parts (pairs : List (HNode × List HNode)) : List String :=
  pairs.foldl
    (fun parts p =>
      if (p.1.tagName == "div" || p.1.tagName == "span") && p.1.attr "dir" == some "auto" then
        if (findParentTag p.2 ["button", "a"]).isSome then parts
        else if ["x11i5rnm", "x1mh8g0r", "xt0b8zv", "xat24cr"].any
            (fun c => strContainsSub (clsJoined p.1) c) then
          let t := p.1.getTextStrip
          if t ≠ "" ∧ t ∉ parts ∧ t.data.length > 3 then parts ++ [t] else parts
        else parts
      else parts)
    []

/-- Model of the anchored pattern
`^(\d+[hmdy]|Just now|Vừa xong|[\d.,]+ (likes?|thích|shares?|chia sẻ|comments?|bình luận))$`
with `re.I`, deciding whether a fragment is a bare counter or date. -/
def isCounterOrDate (txt : String) : Bool :=
  let t := (strLower txt).data
  (t ≠ [] ∧ t.dropLast ≠ [] ∧ t.dropLast.all Char.isDigit ∧
    (t.getLast? = some 'h' ∨ t.getLast? = some 'm' ∨ t.getLast? = some 'd' ∨
      t.getLast? = some 'y')) ∨
  t = ("just now").data ∨ t = ("vừa xong").data ∨
  (let pre := t.takeWhile (· ≠ ' ')
   let rest := t.drop pre.length
   pre ≠ [] ∧ pre.all isRunCharDot ∧ rest.head? = some ' ' ∧
     (["likes", "like", "thích", "shares", "share", "chia sẻ",
       "comments", "comment", "bình luận"].map String.data).contains (rest.drop 1))
where
  /-- the `[\d.,]` character class -/
  isRunCharDot (c : Char) : Bool := c.isDigit || c = '.' || c = ','

/-- Pass 4 of `extract_content`: text nodes longer than 20 characters
once stripped, outside buttons/links/scripts/styles, that are neither
UI-chrome phrases nor bare counters. -/
def step4Texts (pairs : List (HNode × List HNode)) : List String :=
  pairs.filterMap fun p =>
    match p.1 with
    | .text s =>
      let txt := strStrip s
      if txt.data.length > 20 then
        if (findParentTag p.2 ["button", "a", "script", "style"]).isSome then none
        else if ["nhắn tin", "theo dõi", "chia sẻ"].any
            (fun tr => strContainsSub (strLower txt) tr) then none
        else if isCounterOrDate txt then none
        else some txt
      else none
    | .elem _ _ _ => none

/-- First-occurrence deduplication, as Python's manual
`if t not in unique: unique.append(t)` loop and the seen-set
comprehension of `extract_media_urls`. -/
def pyDedup (seen : List String) : List String → List String
  | [] => []
  | x :: xs => if x ∈ seen then pyDedup seen xs else x :: pyDedup (x :: seen) xs

/-- Strip a case-insensitive suffix from a reversed character list. -/
def stripSuffixCI (kw : String) (lr : List Char) : Option (List Char) :=
  let kr := kw.data.reverse
  if (lr.take kr.length).map Char.toLower = kr then some (lr.drop kr.length) else none

/-- `re.sub(r"\s*…\s*(Xem thêm|See more)\s*$", "", s, flags=re.I)`. -/
def trySub1 (s : String) : String :=
  let l1 := s.data.reverse.dropWhile Char.isWhitespace
  match (stripSuffixCI "xem thêm" l1).orElse (fun _ => stripSuffixCI "see more" l1) with
  | none => s
  | some l2 =>
    match l2.dropWhile Char.isWhitespace with
    | c :: rest =>
      if c = '…' then ⟨(rest.dropWhile Char.isWhitespace).reverse⟩ else s
    | [] => s

/-- `re.sub(r"\s*(Xem thêm|See more)\s*$", "", s, flags=re.I)`. -/
def trySub2 (s : String) : String :=
  let l1 := s.data.reverse.dropWhile Char.isWhitespace
  match (stripSuffixCI "xem thêm" l1).orElse (fun _ => stripSuffixCI "see more" l1) with
  | none => s
  | some l2 => ⟨(l2.dropWhile Char.isWhitespace).reverse⟩

/-- `FacebookParser.extract_content`.  `flt` models an internal
exception anywhere in the guarded body, which the source catches,
returning `""`.  `anc` is the ancestor chain above the candidate
element (the source's `find_parent` calls can walk past it). -/
def extract_content (flt : Bool) (anc : List HNode) (e : HNode) : String :=
  if flt then "" else
  let pairs := e.descAnc anc
  -- 1. the Comet message container, under two historical attribute names
  let container :=
    (pairs.find? fun p =>
        p.1.tagName == "div" && p.1.attr "data-ad-comet-preview" == some "message").orElse
      (fun _ => pairs.find? fun p =>
        p.1.tagName == "div" && p.1.attr "data-ad-preview" == some "message")
  let s1 := match container with
    | some p => p.1.getTextSepStrip
    | none => ""
  if s1 ≠ "" then s1 else
  -- 2. structural fallback over dir="auto" elements
  let parts := step2Parts pairs
  if parts ≠ [] then joinSep " " parts else
  -- 3. legacy userContent container
  match pairs.find? (fun p =>
      p.1.tagName == "div" &&
        match p.1.attr "class" with
        | some v => (classTokens v).contains "userContent"
        | none => false) with
  | some p => p.1.getTextSepStrip
  | none =>
    -- 4. global fallback over raw text nodes
    let raws := step4Texts pairs
    if raws ≠ [] then
      strStrip (trySub2 (trySub1 (joinSep " " (pyDedup [] raws))))
    else ""

/-! ## `FacebookParser.extract_timestamp` -/

/-- The loop body of `extract_timestamp`: the first `abbr`/`time`
element carrying a truthy `data-utime` or `datetime` attribute decides
the result; a conversion error raises, which the wrapping `except`
turns into `None` (aborting the whole scan, not just this element). -/
def tsLoop : List HNode → Option PyDateTime
  | [] => none
  | x :: xs =>
    match x.attrTruthy "data-utime" with
    | some u =>
      match pyInt u with
      | some n => some (.fromTimestamp n)
      | none => none
    | none =>
      match x.attrTruthy "datetime" with
      | some d =>
        let d2 := replaceAll d "Z" "+00:00"
        if isoOk d2 then some (.fromIso d2) else none
      | none => tsLoop xs

/-- `FacebookParser.extract_timestamp`. -/
def extract_timestamp (flt : Bool) (e : HNode) : Option PyDateTime :=
  if flt then none else
  tsLoop (((e.descAnc []).filter fun p =>
    p.1.tagName == "abbr" || p.1.tagName == "time").map Prod.fst)

/-! ## `FacebookParser.extract_post_id` -/

/-- The `href` values of `find_all("a", href=True)` under an element. -/
def aHrefs (e : HNode) : List String :=
  ((e.descAnc []).filter fun p =>
    p.1.tagName == "a" && (p.1.attr "href").isSome).map fun p =>
      (p.1.attr "href").getD ""

/-- The per-link body of method 1 of `extract_post_id`: inside one
`href`, `story_fbid` first, then the `/permalink/`, `/posts/`,
`/videos/` `elif` chain (a failed capture after a successful substring
guard falls through to the next link, not to the next pattern). -/
def linkIdOf (href : String) : Option String :=
  match capAfterKey ("story_fbid=").data '&' href.data with
  | some v => some ⟨v⟩
  | none =>
    if strContainsSub href "/permalink/" then
      (capAfterKey ("/permalink/").data '/' href.data).map fun v => ⟨v.takeWhile (· ≠ '?')⟩
    else if strContainsSub href "/posts/" then
      (capAfterKey ("/posts/").data '/' href.data).map fun v => ⟨v.takeWhile (· ≠ '?')⟩
    else if strContainsSub href "/videos/" then
      (capAfterKey ("/videos/").data '/' href.data).map fun v => ⟨v.takeWhile (· ≠ '?')⟩
    else none

/-- First success of `linkIdOf` over the links, in document order. -/
def idFromLinks : List String → Option String
  | [] => none
  | h :: hs =>
    match linkIdOf h with
    | some v => some v
    | none => idFromLinks hs

/-- Method 2: numeric `mf_story_key` inside the `data-ft` attribute. -/
def idFromDataFt (e : HNode) : Option String :=
  match e.attrTruthy "data-ft" with
  | some v => (capDigitsQuoted ("\"mf_story_key\":\"").data v.data).map (⟨·⟩)
  | none => none

/-- Method 3: a run of at least ten digits in `aria-label`. -/
def idFromAria (e : HNode) : Option String :=
  match e.attrTruthy "aria-label" with
  | some v => (scanLongRun [] v.data).map (⟨·⟩)
  | none => none

def ELEMENT_ID_PREFIXES : List String := ["post", "hyperfeed"]

/-- Method 4: the element `id` when it starts with a known post token. -/
def idFromElemId (e : HNode) : Option String :=
  match e.attrTruthy "id" with
  | some v => if ELEMENT_ID_PREFIXES.any (fun p => strStarts v p) then some v else none
  | none => none

/-- Method 5: the deterministic content-hash fallback,
`"generated_" + md5(f"{content[:100]}_{timestamp}".encode()).hexdigest()[:16]`. -/
def generatedId (content : String) (ts : Option PyDateTime) : String :=
  "generated_" ++ strTake 16 (md5Hex (utf8Bytes (strTake 100 content ++ "_" ++ pyStrOptDT ts)))

/-- `FacebookParser.extract_post_id`.  `flt` models an internal
exception anywhere in the guarded body; the source catches it and falls
to the final `return None`. -/
def extract_post_id (flt : Bool) (anc : List HNode) (e : HNode) : Option String :=
  if flt then none else
  match idFromLinks (aHrefs e) with
  | some v => some v
  | none =>
  match idFromDataFt e with
  | some v => some v
  | none =>
  match idFromAria e with
  | some v => some v
  | none =>
  match idFromElemId e with
  | some v => some v
  | none =>
    let content := extract_content false anc e
    let ts := extract_timestamp false e
    if content ≠ "" ∨ ts ≠ none then some (generatedId content ts)
    else none

/-! ## `FacebookParser.extract_engagement` -/

structure Engagement where
  likes : Nat
  comments : Nat
  shares : Nat
deriving DecidableEq

/-- `int(group.replace(",", ""))` with the `ValueError` fallback to the
zero default. -/
def engVal : Option (List Char) → Nat
  | none => 0
  | some run =>
    match pyInt ⟨run.filter (· ≠ ',')⟩ with
    | some n => n.toNat
    | none => 0

/-- `FacebookParser.extract_engagement`: three independent
case-insensitive scans over the element's full text; a missing match or
a failed parse leaves the zero default. -/
def extract_engagement (flt : Bool) (e : HNode) : Engagement :=
  if flt then ⟨0, 0, 0⟩ else
  let t := (strLower e.getTextRaw).data
  { likes := engVal (engScan [("like").data, ("thích").data] [] t)
    comments := engVal (engScan [("comment").data, ("bình luận").data] [] t)
    shares := engVal (engScan [("share").data, ("chia sẻ").data] [] t) }

/-! ## `FacebookParser._is_valid_media` and `extract_media_urls` -/

def junkPatterns : List String :=
  ["/cp0/", "emoji", "safe_image", "s64x64", "s80x80", "s160x160", "p50x50", "p160x160"]

/-- The dimension check of `_is_valid_media`, with its exception
semantics: width and height live in one `try`, so a non-numeric width
raises and the `except ValueError: pass` makes the whole check succeed
without ever looking at the height. -/
def heightOk (element : HNode) : Bool :=
  match element.attrTruthy "height" with
  | some h =>
    match pyInt (removeAll h "px") with
    | some n => decide (¬n < 100)
    | none => true
  | none => true

def dimOk (element : HNode) : Bool :=
  match element.attrTruthy "width" with
  | some w =>
    match pyInt (removeAll w "px") with
    | some n => if n < 100 then false else heightOk element
    | none => true
  | none => heightOk element

/-- `FacebookParser._is_valid_media` (`anc` is the element's ancestor
chain, nearest first, over which `find_parent(class_=True)` walks). -/
def isValidMedia (src : String) (element : HNode) (anc : List HNode) : Bool :=
  if src = "" then false
  else if junkPatterns.any (fun p => strContainsSub src p) then false
  else if ["comment", "reply", "avatar"].any
      (fun x => strContainsSub (pyStrOptNode (findParentClass anc)) x) then false
  else dimOk element

def imgSrcAttrs : List String :=
  ["src", "xlink:href", "data-src", "data-full-size-image-url", "data-img-src"]

/-- Collector 1: `img`/`image` elements, every source attribute that is
truthy and valid contributes (no break between attributes). -/
def imgUrls (pairs : List (HNode × List HNode)) : List String :=
  (pairs.filter fun p => p.1.tagName == "img" || p.1.tagName == "image").flatMap fun p =>
    imgSrcAttrs.filterMap fun a =>
      match p.1.attrTruthy a with
      | some s => if isValidMedia s p.1 p.2 then some s else none
      | none => none

/-- Collector 2: inline `background-image` declarations on `div`s. -/
def styleUrls (pairs : List (HNode × List HNode)) : List String :=
  (pairs.filter fun p => p.1.tagName == "div" && (p.1.attr "style").isSome).filterMap fun p =>
    let style := (p.1.attr "style").getD ""
    if strContainsSub style "background-image" then
      match urlCapture style.data with
      | some u => if isValidMedia ⟨u⟩ p.1 p.2 then some (⟨u⟩ : String) else none
      | none => none
    else none

/-- Collector 3: the `data-ploi` platform attribute on any element. -/
def ploiUrls (pairs : List (HNode × List HNode)) : List String :=
  pairs.filterMap fun p =>
    match p.1.attr "data-ploi" with
    | some v => if v ≠ "" ∧ isValidMedia v p.1 p.2 then some v else none
    | none => none

/-- Collector 4: `video` elements contribute their direct `src`, falling
back to their `poster`, with no validity filtering. -/
def videoUrls (pairs : List (HNode × List HNode)) : List String :=
  (pairs.filter fun p => p.1.tagName == "video").filterMap fun p =>
    match p.1.attrTruthy "src" with
    | some s => some s
    | none => p.1.attrTruthy "poster"

/-- The URLs gathered by the four collectors inside the `try` body of
`extract_media_urls`, in collection order. -/
def mediaCollected (anc : List HNode) (e : HNode) : List String :=
  let pairs := e.descAnc anc
  imgUrls pairs ++ styleUrls pairs ++ ploiUrls pairs ++ videoUrls pairs

/-- `FacebookParser.extract_media_urls`: the deduplication runs outside
the `try`, so an injected fault yields the deduplication of the empty
collection. -/
def extract_media_urls (flt : Bool) (anc : List HNode) (e : HNode) : List String :=
  pyDedup [] (if flt then [] else mediaCollected anc e)

/-! ## `FacebookParser.extract_post_url` -/

/-- Python `query.split("&")` (keeps empty fields). -/
def splitAmpAux (cur : List Char) : List Char → List (List Char)
  | [] => [cur.reverse]
  | c :: cs => if c = '&' then cur.reverse :: splitAmpAux [] cs else splitAmpAux (c :: cur) cs

def splitAmp (s : String) : List String :=
  (splitAmpAux [] s.data).map (⟨·⟩)

def keepParams : List String := ["story_fbid", "id", "fbid", "set", "v"]

/-- One iteration of the link loop of `extract_post_url`: `none` stands
for every `continue` path of the source (comment link, no pattern match,
or a comment identifier among the split query parameters), `some url`
for a `return`.  An accepted link is normalized to an absolute URL and
only the allow-listed query parameters are retained. -/
def linkUrlOf (href : String) : Option String :=
  if strContainsSub href "comment_id=" || strContainsSub href "reply_comment_id=" then
    none
  else if ["/permalink/", "/posts/", "story_fbid=", "/videos/"].any
      (fun p => strContainsSub href p) then
    let href2 :=
      if strStarts href "http" then href
      else if strStarts href "/" then "https://www.facebook.com" ++ href
      else "https://www.facebook.com/" ++ href
    if strContainsSub href2 "?" then
      let base : String := ⟨href2.data.takeWhile (· ≠ '?')⟩
      let query : String := ⟨(href2.data.dropWhile (· ≠ '?')).drop 1⟩
      let params := splitAmp query
      let filtered := params.filter fun p =>
        keepParams.any fun k => strStarts p (k ++ "=")
      if params.any (fun p => strContainsSub p "comment_id=") then none
      else if filtered ≠ [] then some (base ++ "?" ++ joinSep "&" filtered)
      else some base
    else some href2
  else none

/-- The link loop: the first link whose body returns decides the result,
the empty string is returned when every link is skipped. -/
def urlLoop : List String → String
  | [] => ""
  | href :: rest =>
    match linkUrlOf href with
    | some u => u
    | none => urlLoop rest

/-- `FacebookParser.extract_post_url`. -/
def extract_post_url (flt : Bool) (e : HNode) : String :=
  if flt then "" else urlLoop (aHrefs e)

/-! ## `FacebookParser.parse_post` -/

structure PostRecord where
  post_id : String
  page_name : String
  content : String
  media_urls : List String
  posted_at : Option PyDateTime
  engagement : Engagement
  post_url : String
deriving DecidableEq

/-- The sub-extractors of one candidate, as fault-injection sites: each
constructor names the `try/except` region whose internal exception the
oracle may raise (`fpost` is the outer guard of `parse_post` itself). -/
inductive ExField where
  | fid | fcontent | fmedia | fts | feng | furl | fpost
deriving DecidableEq

/-- `FacebookParser.parse_post`: `None` without an identifier (Python
falsiness: absent or empty), `None` when both content and media are
empty, the assembled record otherwise. -/
def parse_post (fo : ExField → Bool) (anc : List HNode) (e : HNode) (page : String) :
    Option PostRecord :=
  if fo .fpost then none else
  match extract_post_id (fo .fid) anc e with
  | none => none
  | some pid =>
    if pid = "" then none else
    let content := extract_content (fo .fcontent) anc e
    let media := extract_media_urls (fo .fmedia) anc e
    let posted := extract_timestamp (fo .fts) e
    let eng := extract_engagement (fo .feng) e
    let url := extract_post_url (fo .furl) e
    if content = "" ∧ media = [] then none
    else some ⟨pid, page, content, media, posted, eng, url⟩

/-! ## `FacebookParser.find_posts` -/

/-- The ordered selector pool of `find_posts` (each is matched only
against `div` elements by `find_all("div", selector)`). -/
def postSelectors : List (HNode → Bool) :=
  [fun n => n.attr "role" == some "article",
   fun n => match n.attr "data-pagelet" with
     | some v => v ≠ "" && strContainsSub v "FeedUnit"
     | none => false,
   fun n => match n.attr "data-pagelet" with
     | some v => v ≠ "" && strContainsSub v "Component"
     | none => false,
   fun n => n.attr "data-testid" == some "fbfeed_story",
   fun n => match n.attr "class" with
     | some v =>
       strContainsSub (joinSep " " (classTokens v)) "x1yztbdb" &&
         strContainsSub (joinSep " " (classTokens v)) "x1n2onr6"
     | none => false]

/-- The pooled matches of all selectors, each with its ancestor chain:
one full document-order pass per selector, concatenated (deliberate
over-approximation, no deduplication at this stage). -/
def allPotential (doc : HNode) : List (HNode × List HNode) :=
  postSelectors.flatMap fun sel =>
    (doc.descAnc []).filter fun p => p.1.tagName == "div" && sel p.1

/-- Hierarchy deduplication: an element is dropped when some other pool
entry is structurally different and contains it among its descendants
(Python `elem != parent and elem in parent.descendants`, both with the
structural `Tag.__eq__`). -/
def uniqueCands (pool : List (HNode × List HNode)) : List (HNode × List HNode) :=
  pool.filter fun p => ¬ pool.any fun q => p.1 ≠ q.1 ∧ p.1 ∈ q.1.descendants

/-- `str(post_elem.get("class", ""))`: Python renders the multi-valued
class attribute as a list literal, and the absent-attribute default as
the empty string. -/
def pyClassStr (e : HNode) : String :=
  match e.attr "class" with
  | none => ""
  | some v => pyListStr (classTokens v)

/-- The per-candidate body of the extraction loop of `find_posts`:
class-based comment/reply exclusion, `parse_post`, then the final
minimal-quality double check. -/
def candProcess (fo : ExField → Bool) (page : String) (p : HNode × List HNode) :
    Option PostRecord :=
  if ["comment", "reply"].any (fun c => strContainsSub (pyClassStr p.1) c) then none
  else
    match parse_post fo p.2 p.1 page with
    | none => none
    | some r => if strStrip r.content ≠ "" ∨ r.media_urls ≠ [] then some r else none

/-- The per-candidate outcomes of one `find_posts` call, in candidate
order; the fault oracle is indexed by the candidate's position. -/
def perCand (FO : Nat → ExField → Bool) (doc : HNode) (page : String) :
    List (Option PostRecord) :=
  (uniqueCands (allPotential doc)).enum.map fun ie => candProcess (FO ie.1) page ie.2

/-- The record list returned by `find_posts`. -/
def findRecords (FO : Nat → ExField → Bool) (doc : HNode) (page : String) :
    List PostRecord :=
  (perCand FO doc page).reduceOption

/-- The fault-free oracles. -/
def noFault : ExField → Bool := fun _ => false

def noFaultAll : Nat → ExField → Bool := fun _ _ => false

/-- A fault in exactly one field of exactly one candidate. -/
def faultOnly (j : Nat) (φ : ExField) : Nat → ExField → Bool :=
  fun i f => i == j && f == φ

/-- The engine object: its only instance attribute is `self.soup`
(`None` after `__init__`). -/
structure FacebookParser where
  soup : Option HNode
deriving DecidableEq

/-- `FacebookParser.parse_html`: stores the parsed tree of the markup
argument in `self.soup`. -/
def FacebookParser.parse_html (_ : FacebookParser) (doc : HNode) : FacebookParser :=
  { soup := some doc }

/-- `FacebookParser._check_login_required`. -/
def checkLoginRequired (p : FacebookParser) : Bool :=
  match p.soup with
  | none => false
  | some doc =>
    (doc.descAnc []).any (fun q =>
        q.1.tagName == "form" && q.1.attr "id" == some "login_form") ||
    (doc.descAnc []).any (fun q =>
        q.1.tagName == "input" && q.1.attr "name" == some "email") ||
    (doc.descAnc []).any (fun q =>
        q.1.tagName == "input" && q.1.attr "name" == some "pass") ||
    doc.textStrings.any (fun s => strContainsSub (strLower s) "log in")

/-- `FacebookParser.find_posts` with its state effect: the call begins
with `self.parse_html(html_content)`, overwriting `self.soup` with the
tree of the current markup (`doc` stands for the tree the loader
produces from the markup string); the title and login-wall lookups only
log and do not touch the state or the result. -/
def FacebookParser.find_posts (p : FacebookParser) (FO : Nat → ExField → Bool)
    (doc : HNode) (page : String) : FacebookParser × List PostRecord :=
  let p2 := p.parse_html doc
  (p2, findRecords FO doc page)

/-! ## Structural size (used to rule out a node equal to its own strict
descendant in the hierarchy-deduplication analysis) -/

mutual
def nodeSize : HNode → Nat
  | .text _ => 1
  | .elem _ _ cs => 1 + nodeSizeList cs

def nodeSizeList : List HNode → Nat
  | [] => 0
  | c :: cs => nodeSize c + nodeSizeList cs
end

/-- The per-field default that a caught internal exception leaves behind
in an emitted record (`False` for the identifier and the outer guard,
whose faults suppress the record altogether). -/
def fieldDefault : ExField → PostRecord → Prop
  | .fid, _ => False
  | .fpost, _ => False
  | .fcontent, r => r.content = ""
  | .fmedia, r => r.media_urls = []
  | .fts, r => r.posted_at = none
  | .feng, r => r.engagement = ⟨0, 0, 0⟩
  | .furl, r => r.post_url = ""

/-! ## Concrete sample documents for the witnesses and counterexamples -/

/-- A minimal post element: an `article`-role `div` with a permalink and
one content image. -/
def samplePost : HNode :=
  .elem "div" [("role", "article")]
    [.elem "a" [("href", "/pg/posts/123")] [],
     .elem "img" [("src", "https://x/pic.jpg")] []]

def sampleDoc : HNode := .elem "html" [] [.elem "body" [] [samplePost]]

/-- The record `find_posts` extracts from `sampleDoc`. -/
def sampleRec : PostRecord :=
  ⟨"123", "pg", "", ["https://x/pic.jpg"], none, ⟨0, 0, 0⟩,
    "https://www.facebook.com/pg/posts/123"⟩

/-- Two sibling posts (fault isolation between candidates). -/
def twoPostDoc : HNode :=
  .elem "html" []
    [.elem "body" []
      [.elem "div" [("role", "article")]
        [.elem "a" [("href", "/pg/posts/111")] [],
         .elem "img" [("src", "https://x/one.jpg")] []],
       .elem "div" [("role", "article")]
        [.elem "a" [("href", "/pg/posts/222")] [],
         .elem "img" [("src", "https://x/two.jpg")] []]]]

/-- Two candidates with no recoverable identifier source but identical
recoverable content (they differ in an attribute no extractor reads). -/
def hashNodeA : HNode :=
  .elem "div" [] [.text "Hello world, this is a long enough post body."]

def hashNodeB : HNode :=
  .elem "div" [("data-x", "1")] [.text "Hello world, this is a long enough post body."]

/-- A candidate whose first link matches `/posts/` and whose second link
carries `story_fbid`. -/
def crossLinkNode : HNode :=
  .elem "div" []
    [.elem "a" [("href", "/pg/posts/123")] [],
     .elem "a" [("href", "/story.php?story_fbid=456&id=9")] []]

/-- A single-link candidate whose link carries `story_fbid`. -/
def storyLinkNode : HNode :=
  .elem "div" [] [.elem "a" [("href", "/story.php?story_fbid=456&id=9")] []]

/-- A video whose source URL contains a junk-pattern token. -/
def junkVideo : HNode := .elem "video" [("src", "https://x/emoji_clip.mp4")] []

def junkVideoDiv : HNode := .elem "div" [] [junkVideo]

/-- A candidate with one valid content image. -/
def mediaDiv : HNode := .elem "div" [] [.elem "img" [("src", "https://x/pic.jpg")] []]

/-- A matched inner `div` nested in an outer `div` that two selector
strategies both match. -/
def innerMatched : HNode := .elem "div" [("role", "article")] []

def outerMatched : HNode :=
  .elem "div" [("role", "article"), ("data-testid", "fbfeed_story")]
    [.elem "a" [("href", "/pg/posts/123")] [],
     .elem "img" [("src", "https://x/pic.jpg")] [],
     innerMatched]

def nestedDoc : HNode := .elem "html" [] [.elem "body" [] [outerMatched]]

/-- A document whose text triggers the login-wall detector. -/
def loginDoc : HNode :=
  .elem "html" [] [.elem "body" [] [.text "Please log in to continue"]]

/-- The engine right after `__init__` (`self.soup = None`). -/
def freshParser : FacebookParser := ⟨none⟩

/-! ## Support lemmas -/

theorem strContainsSub_iff (s pat : String) :
    strContainsSub s pat = true ↔ pat.data <:+: s.data := by
  unfold strContainsSub
  rw [List.any_eq_true]
  simp only [List.mem_tails, List.isPrefixOf_iff_prefix]
  rw [List.infix_iff_prefix_suffix]
  constructor
  · rintro ⟨t, h1, h2⟩
    exact ⟨t, h2, h1⟩
  · rintro ⟨t, h1, h2⟩
    exact ⟨t, h2, h1⟩

theorem strContainsSub_trans {s p q : String} (h1 : strContainsSub s p = true)
    (h2 : strContainsSub p q = true) : strContainsSub s q = true :=
  (strContainsSub_iff s q).mpr
    (((strContainsSub_iff p q).mp h2).trans ((strContainsSub_iff s p).mp h1))

theorem pyDedup_mem : ∀ (l : List String) (seen : List String) (x : String),
    x ∈ pyDedup seen l → x ∈ l ∧ x ∉ seen := by
  intro l
  induction l with
  | nil => intro seen x hx; simp [pyDedup] at hx
  | cons y ys ih =>
    intro seen x hx
    by_cases hy : y ∈ seen
    · rw [pyDedup, if_pos hy] at hx
      obtain ⟨h1, h2⟩ := ih seen x hx
      exact ⟨List.mem_cons_of_mem y h1, h2⟩
    · rw [pyDedup, if_neg hy] at hx
      rcases List.mem_cons.mp hx with h | h
      · subst h; exact ⟨List.mem_cons_self x ys, hy⟩
      · obtain ⟨h1, h2⟩ := ih (y :: seen) x h
        refine ⟨List.mem_cons_of_mem y h1, fun hc => h2 (List.mem_cons_of_mem y hc)⟩

theorem pyDedup_nodup : ∀ (l : List String) (seen : List String),
    (pyDedup seen l).Nodup := by
  intro l
  induction l with
  | nil => intro seen; simp [pyDedup]
  | cons y ys ih =>
    intro seen
    by_cases hy : y ∈ seen
    · rw [pyDedup, if_pos hy]; exact ih seen
    · rw [pyDedup, if_neg hy]
      refine List.Nodup.cons (fun hc => ?_) (ih (y :: seen))
      exact (pyDedup_mem ys (y :: seen) y hc).2 (List.mem_cons_self y seen)

theorem pyDedup_pairwise_idxOf : ∀ (l : List String) (seen : List String),
    List.Pairwise (fun a b => l.indexOf a < l.indexOf b) (pyDedup seen l) := by
  intro l
  induction l with
  | nil => intro seen; simp [pyDedup]
  | cons y ys ih =>
    intro seen
    by_cases hy : y ∈ seen
    · rw [pyDedup, if_pos hy]
      refine ((ih seen).imp_of_mem fun {a b} ha hb hlt => ?_)
      have hay : y ≠ a := fun he => (pyDedup_mem ys seen a ha).2 (he ▸ hy)
      have hby : y ≠ b := fun he => (pyDedup_mem ys seen b hb).2 (he ▸ hy)
      rw [List.indexOf_cons_ne ys hay, List.indexOf_cons_ne ys hby]
      omega
    · rw [pyDedup, if_neg hy]
      refine List.Pairwise.cons (fun b hb => ?_) ?_
      · have hb2 := (pyDedup_mem ys (y :: seen) b hb).2
        have hby : y ≠ b := fun he => hb2 (he ▸ List.mem_cons_self y seen)
        rw [List.indexOf_cons_self, List.indexOf_cons_ne ys hby]
        omega
      · refine ((ih (y :: seen)).imp_of_mem fun {a b} ha hb hlt => ?_)
        have hay : y ≠ a := fun he =>
          (pyDedup_mem ys (y :: seen) a ha).2 (he ▸ List.mem_cons_self y seen)
        have hby : y ≠ b := fun he =>
          (pyDedup_mem ys (y :: seen) b hb).2 (he ▸ List.mem_cons_self y seen)
        rw [List.indexOf_cons_ne ys hay, List.indexOf_cons_ne ys hby]
        omega

/-! ## Claim theorems -/

/-- C10: every selector strategy of the candidate locator is applied
through `find_all("div", ...)`: a pooled candidate (and hence a
deduplicated candidate handed to extraction) always has tag name `div`,
whatever its attributes; a non-`div` element is never selected. -/
theorem c10_locator_matches_only_divs (doc : HNode) :
    (∀ p ∈ allPotential doc, p.1.tagName = "div") ∧
    (∀ p ∈ uniqueCands (allPotential doc), p.1.tagName = "div") := by
  have key : ∀ p ∈ allPotential doc, p.1.tagName = "div" := by
    intro p hp
    unfold allPotential at hp
    rw [List.mem_flatMap] at hp
    obtain ⟨sel, _, hmem⟩ := hp
    have hcond := (List.mem_filter.mp hmem).2
    rw [Bool.and_eq_true] at hcond
    exact beq_iff_eq.mp hcond.1
  exact ⟨key, fun p hp => key p (List.mem_filter.mp hp).1⟩

/-- C10 witness: the sample document's only candidate is a `div`. -/
theorem c10_witness : (samplePost, [HNode.elem "body" [] [samplePost], sampleDoc]).1.tagName = "div" :=
  (c10_locator_matches_only_divs sampleDoc).1
    (samplePost, [HNode.elem "body" [] [samplePost], sampleDoc]) (by decide)

/-- C8 is corrected: `find_posts` is not side-effect-free on the engine
instance — it stores the parsed tree in `self.soup`, and the stored tree
is observable through a later `_check_login_required` call on the same
instance.  Concretely, a fresh engine reports no login wall, but after
one `find_posts` call on a login-wall document the same instance reports
one. -/
theorem c8_counterexample :
    (freshParser.find_posts noFaultAll loginDoc "pg").1 ≠ freshParser ∧
    checkLoginRequired freshParser = false ∧
    checkLoginRequired (freshParser.find_posts noFaultAll loginDoc "pg").1 = true := by
  refine ⟨?_, by decide, by decide⟩
  intro h
  have := congrArg FacebookParser.soup h
  simp [FacebookParser.find_posts, FacebookParser.parse_html, freshParser] at this

/-- C8 amended: `find_posts` overwrites `self.soup` with the tree of the
current call's markup before extracting, so the returned record list
depends only on the call's own document and page-name arguments (any two
engine states produce the same records), while the engine retains
`soup = some doc` after the call instead of discarding it. -/
theorem c8_amended (p p' : FacebookParser) (FO : Nat → ExField → Bool)
    (doc : HNode) (page : String) :
    (p.find_posts FO doc page).2 = (p'.find_posts FO doc page).2 ∧
    (p.find_posts FO doc page).1.soup = some doc :=
  ⟨rfl, rfl⟩

/-- C5: `extract_post_url` never derives its result from a link whose
query carries a comment identifier — every link containing
`comment_id=` is skipped outright (removing all such links does not
change the result), and on the spec's scenario link
`/pg/posts/111?story_fbid=111&comment_id=222` the extraction yields the
empty string rather than a stripped version of the link. -/
theorem c5_comment_links_skipped :
    (∀ e : HNode, extract_post_url false e =
      urlLoop ((aHrefs e).filter fun h => !(strContainsSub h "comment_id="))) ∧
    urlLoop ["https://www.facebook.com/pg/posts/111?story_fbid=111&comment_id=222"] = "" := by
  have skip : ∀ links : List String,
      urlLoop links = urlLoop (links.filter fun h => !(strContainsSub h "comment_id=")) := by
    intro links
    induction links with
    | nil => rfl
    | cons h rest ih =>
      rw [List.filter_cons]
      by_cases hc : strContainsSub h "comment_id=" = true
      · have hnone : linkUrlOf h = none := by
          unfold linkUrlOf
          rw [hc]
          simp
        simp [urlLoop, hnone, hc, ih]
      · simp only [Bool.not_eq_true] at hc
        simp only [hc, Bool.not_false, if_pos rfl]
        cases hl : linkUrlOf h with
        | some u => simp [urlLoop, hl]
        | none => simp [urlLoop, hl, ih]
  refine ⟨fun e => ?_, by decide⟩
  rw [show extract_post_url false e = urlLoop (aHrefs e) from rfl]
  exact skip (aHrefs e)

/-- C9: the media list is deduplicated with first-occurrence semantics —
the result of `extract_media_urls` has no repeated value, and for any
two result positions the earlier one's URL has the strictly smaller
first-collection index in the gathered URL sequence. -/
theorem c9_media_urls_nodup_ordered (anc : List HNode) (e : HNode) :
    (extract_media_urls false anc e).Nodup ∧
    List.Pairwise
      (fun a b => (mediaCollected anc e).indexOf a < (mediaCollected anc e).indexOf b)
      (extract_media_urls false anc e) := by
  rw [show extract_media_urls false anc e = pyDedup [] (mediaCollected anc e) from rfl]
  exact ⟨pyDedup_nodup _ _, pyDedup_pairwise_idxOf _ _⟩

/-- C3: when identifier methods (1)-(7) all fail on two candidates whose
recovered content and timestamp agree (and at least one of the two is
recoverable), `extract_post_id` returns the identical generated
identifier, namely `generated_` followed by the first 16 hex digits of
the MD5 digest of the first 100 content characters joined with the
timestamp — a pure function of content and timestamp. -/
theorem c3_generated_id_deterministic (anc1 anc2 : List HNode) (e1 e2 : HNode)
    (h1 : idFromLinks (aHrefs e1) = none) (h2 : idFromDataFt e1 = none)
    (h3 : idFromAria e1 = none) (h4 : idFromElemId e1 = none)
    (h5 : idFromLinks (aHrefs e2) = none) (h6 : idFromDataFt e2 = none)
    (h7 : idFromAria e2 = none) (h8 : idFromElemId e2 = none)
    (hc : extract_content false anc1 e1 = extract_content false anc2 e2)
    (ht : extract_timestamp false e1 = extract_timestamp false e2)
    (hne : extract_content false anc1 e1 ≠ "" ∨ extract_timestamp false e1 ≠ none) :
    extract_post_id false anc1 e1 = extract_post_id false anc2 e2 ∧
    extract_post_id false anc1 e1 =
      some ("generated_" ++ strTake 16 (md5Hex (utf8Bytes
        (strTake 100 (extract_content false anc1 e1) ++ "_" ++
          pyStrOptDT (extract_timestamp false e1))))) := by
  have key : ∀ (anc : List HNode) (e : HNode),
      idFromLinks (aHrefs e) = none → idFromDataFt e = none → idFromAria e = none →
      idFromElemId e = none →
      (extract_content false anc e ≠ "" ∨ extract_timestamp false e ≠ none) →
      extract_post_id false anc e =
        some (generatedId (extract_content false anc e) (extract_timestamp false e)) := by
    intro anc e k1 k2 k3 k4 k5
    unfold extract_post_id
    rw [k1, k2, k3, k4]
    simp [k5]
  have hne2 : extract_content false anc2 e2 ≠ "" ∨ extract_timestamp false e2 ≠ none := by
    rw [← hc, ← ht]; exact hne
  refine ⟨?_, ?_⟩
  · rw [key anc1 e1 h1 h2 h3 h4 hne, key anc2 e2 h5 h6 h7 h8 hne2, hc, ht]
  · rw [key anc1 e1 h1 h2 h3 h4 hne]
    rfl

/-- C3 witness: two concrete candidates with no identifier source and
the same content produce the same generated identifier. -/
theorem c3_witness : extract_post_id false [] hashNodeA = extract_post_id false [] hashNodeB :=
  (c3_generated_id_deterministic [] [] hashNodeA hashNodeB (by decide) (by decide)
    (by decide) (by decide) (by decide) (by decide) (by decide) (by decide)
    (by decide) (by decide) (Or.inl (by decide))).1

/-- C4 is corrected: the identifier priority is per link, not global —
on a candidate whose first link matches `/posts/123` and whose second
link carries `story_fbid=456`, `extract_post_id` returns `123`, not the
`story_fbid` value `456` the claimed global priority demands. -/
theorem c4_counterexample :
    aHrefs crossLinkNode = ["/pg/posts/123", "/story.php?story_fbid=456&id=9"] ∧
    strContainsSub "/story.php?story_fbid=456&id=9" "story_fbid=" = true ∧
    extract_post_id false [] crossLinkNode = some "123" ∧
    extract_post_id false [] crossLinkNode ≠ some "456" ∧
    extract_post_id false [] storyLinkNode = some "456" := by
  refine ⟨by decide, by decide, by decide, by decide, by decide⟩

theorem idFromLinks_append (pre rest : List String) (h : String) (v : String)
    (hpre : ∀ h2 ∈ pre, linkIdOf h2 = none) (hv : linkIdOf h = some v) :
    idFromLinks (pre ++ h :: rest) = some v := by
  induction pre with
  | nil => simp [idFromLinks, hv]
  | cons p ps ih =>
    rw [List.cons_append, idFromLinks, hpre p (List.mem_cons_self p ps)]
    exact ih (fun h2 hh => hpre h2 (List.mem_cons_of_mem p hh))

theorem idFromLinks_none (links : List String)
    (hall : ∀ h2 ∈ links, linkIdOf h2 = none) : idFromLinks links = none := by
  induction links with
  | nil => rfl
  | cons p ps ih =>
    rw [idFromLinks, hall p (List.mem_cons_self p ps)]
    exact ih (fun h2 hh => hall h2 (List.mem_cons_of_mem p hh))

/-- C4 amended: `extract_post_id` scans the links in document order and
the first link that yields any identifier wins.  Within a single link
`story_fbid` is tried first, then the `/permalink/`, `/posts/`,
`/videos/` substring guards in that `elif` order (an earlier guard
decides the link even when a later pattern also occurs in it).  Methods
(5)-(8) run only after every link has failed, in the fixed order
`data-ft` story key, accessibility-label digit run, prefixed element
identifier, content-hash fallback, first success winning. -/
theorem c4_amended_per_link_priority :
    (∀ (anc : List HNode) (e : HNode) (pre rest : List String) (h : String) (v : String),
      aHrefs e = pre ++ h :: rest →
      (∀ h2 ∈ pre, linkIdOf h2 = none) →
      linkIdOf h = some v →
      extract_post_id false anc e = some v) ∧
    (∀ (h : String) (w : List Char),
      capAfterKey ("story_fbid=").data '&' h.data = some w → linkIdOf h = some ⟨w⟩) ∧
    (∀ h : String,
      capAfterKey ("story_fbid=").data '&' h.data = none →
      strContainsSub h "/permalink/" = true →
      linkIdOf h =
        (capAfterKey ("/permalink/").data '/' h.data).map (fun u => ⟨u.takeWhile (· ≠ '?')⟩)) ∧
    (∀ h : String,
      capAfterKey ("story_fbid=").data '&' h.data = none →
      strContainsSub h "/permalink/" = false →
      strContainsSub h "/posts/" = true →
      linkIdOf h =
        (capAfterKey ("/posts/").data '/' h.data).map (fun u => ⟨u.takeWhile (· ≠ '?')⟩)) ∧
    (∀ h : String,
      capAfterKey ("story_fbid=").data '&' h.data = none →
      strContainsSub h "/permalink/" = false →
      strContainsSub h "/posts/" = false →
      strContainsSub h "/videos/" = true →
      linkIdOf h =
        (capAfterKey ("/videos/").data '/' h.data).map (fun u => ⟨u.takeWhile (· ≠ '?')⟩)) ∧
    (∀ (anc : List HNode) (e : HNode),
      (∀ h2 ∈ aHrefs e, linkIdOf h2 = none) →
      (∀ v, idFromDataFt e = some v → extract_post_id false anc e = some v) ∧
      (idFromDataFt e = none →
        ∀ v, idFromAria e = some v → extract_post_id false anc e = some v) ∧
      (idFromDataFt e = none → idFromAria e = none →
        ∀ v, idFromElemId e = some v → extract_post_id false anc e = some v) ∧
      (idFromDataFt e = none → idFromAria e = none → idFromElemId e = none →
        (extract_content false anc e ≠ "" ∨ extract_timestamp false e ≠ none) →
        extract_post_id false anc e =
          some (generatedId (extract_content false anc e) (extract_timestamp false e)))) := by
  refine ⟨?_, ?_, ?_, ?_, ?_, ?_⟩
  · intro anc e pre rest h v hsplit hpre hv
    have hfl : idFromLinks (aHrefs e) = some v := by
      rw [hsplit]
      exact idFromLinks_append pre rest h v hpre hv
    unfold extract_post_id
    rw [hfl]
    rfl
  · intro h w hw
    unfold linkIdOf
    rw [hw]
  · intro h hst hperm
    unfold linkIdOf
    rw [hst, hperm]
    rfl
  · intro h hst hperm hposts
    unfold linkIdOf
    rw [hst, hperm, hposts]
    rfl
  · intro h hst hperm hposts hvids
    unfold linkIdOf
    rw [hst, hperm, hposts, hvids]
    rfl
  · intro anc e hall
    have hfl : idFromLinks (aHrefs e) = none := idFromLinks_none (aHrefs e) hall
    refine ⟨?_, ?_, ?_, ?_⟩
    · intro v hft
      unfold extract_post_id
      rw [hfl, hft]
      rfl
    · intro hft v haria
      unfold extract_post_id
      rw [hfl, hft, haria]
      rfl
    · intro hft haria v hel
      unfold extract_post_id
      rw [hfl, hft, haria, hel]
      rfl
    · intro hft haria hel hne
      unfold extract_post_id
      rw [hfl, hft, haria, hel]
      simp [hne]

/-- C4 amended witness: a single `story_fbid` link yields its value
through the first-yielding-link rule. -/
theorem c4_amended_witness : extract_post_id false [] storyLinkNode = some "456" :=
  c4_amended_per_link_priority.1 [] storyLinkNode [] []
    "/story.php?story_fbid=456&id=9" "456" (by decide)
    (fun h2 hh => absurd hh (List.not_mem_nil h2)) (by decide)

/-- C6 is corrected: URLs contributed by video elements bypass the
validity filter — a video whose source contains the junk token `emoji`
still lands in the media list although `_is_valid_media` rejects it. -/
theorem c6_counterexample :
    extract_media_urls false [] junkVideoDiv = ["https://x/emoji_clip.mp4"] ∧
    strContainsSub "https://x/emoji_clip.mp4" "emoji" = true ∧
    isValidMedia "https://x/emoji_clip.mp4" junkVideo [junkVideoDiv] = false := by
  refine ⟨by decide, by decide, by decide⟩

/-- C6 amended: every URL in the result of `extract_media_urls` either
passes `_is_valid_media` evaluated at that URL's own collected element
and that element's true ancestor chain in the candidate's tree (as the
image, background-image and `data-ploi` collectors enforce), or was
contributed by the unfiltered video collector (direct source or
poster). -/
theorem c6_amended_filter_or_video (anc : List HNode) (e : HNode) (u : String)
    (hu : u ∈ extract_media_urls false anc e) :
    (∃ p ∈ e.descAnc anc, isValidMedia u p.1 p.2 = true) ∨
    u ∈ videoUrls (e.descAnc anc) := by
  have hu2 : u ∈ mediaCollected anc e :=
    (pyDedup_mem _ _ _
      (by rw [show extract_media_urls false anc e = pyDedup [] (mediaCollected anc e)
        from rfl] at hu; exact hu)).1
  unfold mediaCollected at hu2
  rcases List.mem_append.mp hu2 with hrest | hvid
  · rcases List.mem_append.mp hrest with hrest2 | hploi
    · rcases List.mem_append.mp hrest2 with himg | hsty
      · left
        unfold imgUrls at himg
        rw [List.mem_flatMap] at himg
        obtain ⟨p, hpmem, hmem⟩ := himg
        rw [List.mem_filterMap] at hmem
        obtain ⟨a, _, hfa⟩ := hmem
        split at hfa
        · split at hfa
          next hval =>
            exact ⟨p, (List.mem_filter.mp hpmem).1, (Option.some.inj hfa) ▸ hval⟩
          next => exact absurd hfa (by simp)
        · exact absurd hfa (by simp)
      · left
        unfold styleUrls at hsty
        rw [List.mem_filterMap] at hsty
        obtain ⟨p, hpmem, hfa⟩ := hsty
        dsimp only [] at hfa
        split at hfa
        · split at hfa
          · split at hfa
            next hval =>
              exact ⟨p, (List.mem_filter.mp hpmem).1, (Option.some.inj hfa) ▸ hval⟩
            next => exact absurd hfa (by simp)
          · exact absurd hfa (by simp)
        · exact absurd hfa (by simp)
    · left
      unfold ploiUrls at hploi
      rw [List.mem_filterMap] at hploi
      obtain ⟨p, hpmem, hfa⟩ := hploi
      split at hfa
      · split at hfa
        next hcond =>
          exact ⟨p, hpmem, (Option.some.inj hfa) ▸ hcond.2⟩
        next => exact absurd hfa (by simp)
      · exact absurd hfa (by simp)
  · exact Or.inr hvid

/-- C6 amended witness: the sample image URL passes the filter at its
own element and chain, or comes from a video. -/
theorem c6_amended_witness :
    (∃ p ∈ mediaDiv.descAnc [], isValidMedia "https://x/pic.jpg" p.1 p.2 = true) ∨
    "https://x/pic.jpg" ∈ videoUrls (mediaDiv.descAnc []) :=
  c6_amended_filter_or_video [] mediaDiv "https://x/pic.jpg" (by decide)

mutual
theorem descAnc_size : (n : HNode) → (anc : List HNode) →
    ∀ p ∈ HNode.descAnc n anc, nodeSize p.1 < nodeSize n
  | .text _, _ => by
    intro p hp
    simp [HNode.descAnc] at hp
  | .elem t a cs, anc => by
    intro p hp
    rw [HNode.descAnc] at hp
    have := descAncList_size cs (HNode.elem t a cs :: anc) p hp
    simp only [nodeSize]
    omega

theorem descAncList_size : (cs : List HNode) → (anc : List HNode) →
    ∀ p ∈ HNode.descAncList cs anc, nodeSize p.1 ≤ nodeSizeList cs
  | [], _ => by
    intro p hp
    simp [HNode.descAncList] at hp
  | c :: cs, anc => by
    intro p hp
    rw [HNode.descAncList] at hp
    rcases List.mem_cons.mp hp with h | h
    · subst h
      simp only [nodeSizeList]
      omega
    · rcases List.mem_append.mp h with h2 | h2
      · have := descAnc_size c anc p h2
        simp only [nodeSizeList]
        omega
      · have := descAncList_size cs anc p h2
        simp only [nodeSizeList]
        omega
end

theorem ne_of_mem_descendants {d a : HNode} (h : d ∈ a.descendants) : d ≠ a := by
  intro he
  unfold HNode.descendants at h
  rw [List.mem_map] at h
  obtain ⟨p, hp, hfst⟩ := h
  have := descAnc_size a [] p hp
  rw [hfst, he] at this
  exact Nat.lt_irrefl _ this

/-- C7 is corrected: hierarchy deduplication does discard the nested
descendant, but the outer node is kept once per selector strategy that
matched it, so one nested pair can still produce two (identical)
records: in `nestedDoc` the outer node matches two selectors and its
nested article-role descendant matches one, and `find_posts` emits two
records, both extracted from the outer node. -/
theorem c7_counterexample :
    outerMatched ∈ (allPotential nestedDoc).map Prod.fst ∧
    innerMatched ∈ (allPotential nestedDoc).map Prod.fst ∧
    innerMatched ∈ outerMatched.descendants ∧
    (uniqueCands (allPotential nestedDoc)).map Prod.fst = [outerMatched, outerMatched] ∧
    (findRecords noFaultAll nestedDoc "pg").length = 2 := by
  refine ⟨by decide, by decide, by decide, by decide, by decide⟩

/-- C7 amended: whenever the pool contains a node and a strict ancestor
of it, every pool entry carrying the descendant node is discarded before
extraction; the surviving entries for the pair all carry the outermost
node, their number is bounded by the ancestor's pool multiplicity (one
per matching selector), and extraction yields at most one record per
surviving candidate. -/
theorem c7_amended_descendant_discarded (doc : HNode) (pa pd : HNode × List HNode)
    (ha : pa ∈ allPotential doc) (_ : pd ∈ allPotential doc)
    (hdesc : pd.1 ∈ pa.1.descendants) :
    (∀ q ∈ uniqueCands (allPotential doc), q.1 ≠ pd.1) ∧
    ((uniqueCands (allPotential doc)).filter fun q => q.1 == pa.1 || q.1 == pd.1).length ≤
      ((allPotential doc).filter fun q => q.1 == pa.1).length ∧
    (∀ (FO : Nat → ExField → Bool) (page : String),
      (findRecords FO doc page).length ≤ (uniqueCands (allPotential doc)).length) := by
  have hne : pd.1 ≠ pa.1 := ne_of_mem_descendants hdesc
  have part1 : ∀ q ∈ uniqueCands (allPotential doc), q.1 ≠ pd.1 := by
    intro q hq he
    have hcond := (List.mem_filter.mp hq).2
    rw [decide_eq_true_iff] at hcond
    refine hcond ?_
    rw [List.any_eq_true]
    refine ⟨pa, ha, ?_⟩
    rw [decide_eq_true_iff]
    exact ⟨he ▸ hne, he ▸ hdesc⟩
  refine ⟨part1, ?_, ?_⟩
  · have hcongr : ((uniqueCands (allPotential doc)).filter
        fun q => q.1 == pa.1 || q.1 == pd.1) =
        ((uniqueCands (allPotential doc)).filter fun q => q.1 == pa.1) := by
      refine List.filter_congr fun q hq => ?_
      have : (q.1 == pd.1) = false := beq_eq_false_iff_ne.mpr (part1 q hq)
      rw [this, Bool.or_false]
    rw [hcongr]
    have hsub : List.Sublist
        ((uniqueCands (allPotential doc)).filter (fun q => q.1 == pa.1))
        ((allPotential doc).filter (fun q => q.1 == pa.1)) := by
      unfold uniqueCands
      exact (List.filter_sublist _).filter _
    exact hsub.length_le
  · intro FO page
    have h1 : (findRecords FO doc page).length ≤ (perCand FO doc page).length :=
      List.reduceOption_length_le _
    have h2 : (perCand FO doc page).length = (uniqueCands (allPotential doc)).length := by
      unfold perCand
      rw [List.length_map, List.enum_length]
    omega

/-- C7 amended witness: in the sample nested document the inner node is
eliminated and the pair's surviving candidates are bounded by the outer
node's pool multiplicity. -/
theorem c7_amended_witness :
    ((uniqueCands (allPotential nestedDoc)).filter
      fun q => q.1 == outerMatched || q.1 == innerMatched).length ≤
    ((allPotential nestedDoc).filter fun q => q.1 == outerMatched).length :=
  (c7_amended_descendant_discarded nestedDoc
    (outerMatched, [HNode.elem "body" [] [outerMatched], nestedDoc])
    (innerMatched, [outerMatched, HNode.elem "body" [] [outerMatched], nestedDoc])
    (by decide) (by decide) (by decide)).2.1

theorem parse_post_some_inv (fo : ExField → Bool) (anc : List HNode) (e : HNode)
    (page : String) (r : PostRecord) (h : parse_post fo anc e page = some r) :
    r.post_id ≠ "" ∧ (r.content ≠ "" ∨ r.media_urls ≠ []) := by
  unfold parse_post at h
  split at h
  · exact absurd h (by simp)
  · split at h
    · exact absurd h (by simp)
    next pid heq =>
      split at h
      · exact absurd h (by simp)
      next hpid =>
        dsimp only [] at h
        split at h
        · exact absurd h (by simp)
        next hcm =>
          rw [← Option.some.inj h]
          refine ⟨hpid, ?_⟩
          by_cases hc : extract_content (fo ExField.fcontent) anc e = ""
          · refine Or.inr fun hm => hcm ⟨hc, hm⟩
          · exact Or.inl hc

theorem parse_post_components (fo : ExField → Bool) (anc : List HNode) (e : HNode)
    (page : String) (r : PostRecord) (h : parse_post fo anc e page = some r) :
    r.page_name = page ∧
    r.content = extract_content (fo .fcontent) anc e ∧
    r.media_urls = extract_media_urls (fo .fmedia) anc e ∧
    r.posted_at = extract_timestamp (fo .fts) e ∧
    r.engagement = extract_engagement (fo .feng) e ∧
    r.post_url = extract_post_url (fo .furl) e := by
  unfold parse_post at h
  split at h
  · exact absurd h (by simp)
  · split at h
    · exact absurd h (by simp)
    · split at h
      · exact absurd h (by simp)
      · dsimp only [] at h
        split at h
        · exact absurd h (by simp)
        · rw [← Option.some.inj h]
          exact ⟨rfl, rfl, rfl, rfl, rfl, rfl⟩

/-- C2: `parse_post` returns `None` exactly when no (Python-truthy)
identifier is recovered or both extracted content and media are empty;
otherwise it returns the assembled record unchanged.  Consequently every
record `find_posts` emits has a non-empty `post_id` and non-empty
content or a non-empty media list. -/
theorem c2_validation_rules :
    (∀ (anc : List HNode) (e : HNode) (page : String),
      parse_post noFault anc e page = none ↔
        (extract_post_id false anc e = none ∨ extract_post_id false anc e = some "" ∨
          (extract_content false anc e = "" ∧ extract_media_urls false anc e = []))) ∧
    (∀ (anc : List HNode) (e : HNode) (page : String) (pid : String),
      extract_post_id false anc e = some pid → pid ≠ "" →
      (extract_content false anc e ≠ "" ∨ extract_media_urls false anc e ≠ []) →
      parse_post noFault anc e page = some
        ⟨pid, page, extract_content false anc e, extract_media_urls false anc e,
         extract_timestamp false e, extract_engagement false e, extract_post_url false e⟩) ∧
    (∀ (FO : Nat → ExField → Bool) (doc : HNode) (page : String) (r : PostRecord),
      r ∈ findRecords FO doc page →
        r.post_id ≠ "" ∧ (r.content ≠ "" ∨ r.media_urls ≠ [])) := by
  refine ⟨?_, ?_, ?_⟩
  · intro anc e page
    unfold parse_post
    rw [if_neg (by simp [noFault])]
    cases hid : extract_post_id (noFault ExField.fid) anc e with
    | none =>
      rw [show noFault ExField.fid = false from rfl] at hid
      simp [hid]
    | some pid =>
      rw [show noFault ExField.fid = false from rfl] at hid
      by_cases hpid : pid = ""
      · subst hpid
        simp [hid]
      · simp only [hid, if_neg hpid]
        constructor
        · intro hnone
          refine Or.inr (Or.inr ?_)
          by_contra hcm
          rw [if_neg ?_] at hnone
          · exact absurd hnone (by simp)
          · simpa [noFault] using hcm
        · rintro (h | h | h)
          · exact absurd h (by simp)
          · exact absurd (Option.some.inj h) hpid
          · rw [if_pos (by simpa [noFault] using h)]
  · intro anc e page pid hid hpid hcm
    have hneg : ¬(extract_content false anc e = "" ∧ extract_media_urls false anc e = []) :=
      fun hc => hcm.elim (fun h => h hc.1) (fun h => h hc.2)
    unfold parse_post
    rw [if_neg (by simp [noFault])]
    simp only [noFault] at hid ⊢
    simp only [hid, if_neg hpid, if_neg hneg]
  · intro FO doc page r hr
    rw [findRecords] at hr
    rw [List.reduceOption_mem_iff] at hr
    unfold perCand at hr
    rw [List.mem_map] at hr
    obtain ⟨ie, _, heq⟩ := hr
    unfold candProcess at heq
    split at heq
    · exact absurd heq (by simp)
    · split at heq
      · exact absurd heq (by simp)
      next r2 hp =>
        split at heq
        · exact parse_post_some_inv _ _ _ _ _ ((Option.some.inj heq) ▸ hp)
        · exact absurd heq (by simp)

/-- C2 witness: the record extracted from the sample document satisfies
the output invariant. -/
theorem c2_witness : sampleRec.post_id ≠ "" ∧ (sampleRec.content ≠ "" ∨ sampleRec.media_urls ≠ []) :=
  c2_validation_rules.2.2 noFaultAll sampleDoc "pg" sampleRec (by decide)

theorem parse_post_fault_default (φ : ExField) (anc : List HNode) (e : HNode)
    (page : String) (r : PostRecord)
    (h : parse_post (fun f => f == φ) anc e page = some r) : fieldDefault φ r := by
  cases φ with
  | fid =>
    exfalso
    unfold parse_post extract_post_id at h
    simp at h
  | fpost =>
    exfalso
    unfold parse_post at h
    simp at h
  | fcontent =>
    have hc := (parse_post_components _ _ _ _ _ h).2.1
    exact hc.trans rfl
  | fmedia =>
    have hc := (parse_post_components _ _ _ _ _ h).2.2.1
    exact hc.trans rfl
  | fts =>
    have hc := (parse_post_components _ _ _ _ _ h).2.2.2.1
    exact hc.trans rfl
  | feng =>
    have hc := (parse_post_components _ _ _ _ _ h).2.2.2.2.1
    exact hc.trans rfl
  | furl =>
    have hc := (parse_post_components _ _ _ _ _ h).2.2.2.2.2
    exact hc.trans rfl

/-- C1: per-candidate, per-field fault isolation in `find_posts`.  With
an internal exception injected into one sub-extractor of the candidate
at position `j`, (1) every other candidate's outcome is exactly what it
is in the fault-free run, (2) the record list is still assembled from
all per-candidate outcomes (no exception escapes), and (3) if the
faulted candidate still yields a record, the faulted field carries its
empty/zero default (a fault in the identifier or the outer guard drops
the candidate's record instead). -/
theorem c1_fault_isolation (doc : HNode) (page : String) (j : Nat) (φ : ExField) :
    (∀ i, i ≠ j → (perCand (faultOnly j φ) doc page).getD i none =
      (perCand noFaultAll doc page).getD i none) ∧
    findRecords (faultOnly j φ) doc page = (perCand (faultOnly j φ) doc page).reduceOption ∧
    (∀ r, (perCand (faultOnly j φ) doc page).getD j none = some r → fieldDefault φ r) := by
  refine ⟨?_, rfl, ?_⟩
  · intro i hne
    unfold perCand
    rw [List.getD_eq_getElem?_getD, List.getD_eq_getElem?_getD,
      List.getElem?_map, List.getElem?_map, List.getElem?_enum]
    cases hq : (uniqueCands (allPotential doc))[i]? with
    | none => rfl
    | some entry =>
      have hfo : faultOnly j φ i = noFaultAll i := by
        funext f
        unfold faultOnly noFaultAll
        rw [beq_eq_false_iff_ne.mpr hne, Bool.false_and]
      simp [hfo]
  · intro r hr
    unfold perCand at hr
    rw [List.getD_eq_getElem?_getD, List.getElem?_map, List.getElem?_enum] at hr
    cases hq : (uniqueCands (allPotential doc))[j]? with
    | none => rw [hq] at hr; exact absurd hr (by simp)
    | some entry =>
      rw [hq] at hr
      have hfo : faultOnly j φ j = fun f => f == φ := by
        funext f
        unfold faultOnly
        rw [beq_self_eq_true, Bool.true_and]
      have hr2 : candProcess (fun f => f == φ) page entry = some r := by
        rw [← hfo]
        simpa using hr
      clear hr
      unfold candProcess at hr2
      rename' hr2 => hr
      split at hr
      · exact absurd hr (by simp)
      · split at hr
        · exact absurd hr (by simp)
        next r2 hp =>
          split at hr
          · exact parse_post_fault_default φ _ _ page r ((Option.some.inj hr) ▸ hp)
          · exact absurd hr (by simp)

/-- C1 witness: with a content fault injected into the first candidate
of a two-post document, the second candidate's outcome is unchanged. -/
theorem c1_witness :
    (perCand (faultOnly 0 ExField.fcontent) twoPostDoc "pg").getD 1 none =
      (perCand noFaultAll twoPostDoc "pg").getD 1 none :=
  (c1_fault_isolation twoPostDoc "pg" 0 ExField.fcontent).1 1 (by decide)
